import Mathlib

/-!
# Verification of the intersense domain-detection engine

Shallow embedding of `src/scripts/detect-domains.py` (the detection/scoring
engine and its tiered cache-staleness protocol), with theorems checking the
natural-language specification against the code.

Modelling conventions:
* Python floats are modelled by `ℚ` (the arithmetic here is finite sums of
  small fractions; `ℚ` is the exact idealisation).
* `hashlib.sha256(...).hexdigest()` is an external primitive; it is modelled
  by an arbitrary function `H : ByteSeq → String`, and properties that need
  collision-freedom take injectivity of `H` as an explicit hypothesis.
* `yaml.safe_load` / `yaml.dump` are external; a cache file on disk is
  modelled by its parse outcome (`CacheFile`), the codec being the identity
  on parsed documents.
* Subprocess results (git) and the datetime library are modelled by an
  explicit environment record `StaleEnv`.
-/

/-- A sequence of bytes (Python `bytes`), each entry a byte value. -/
abbrev ByteSeq := List Nat

/-- A scalar YAML value as loaded by `yaml.safe_load`, restricted to the
scalar shapes the engine inspects (strings, ints, bools). -/
inductive YVal where
  | str (s : String)
  | int (n : Int)
  | bool (b : Bool)
deriving DecidableEq

/-- Python truthiness of a scalar value (`bool(v)`). -/
def truthy : YVal → Bool
  | .str s => s != ""
  | .int n => n != 0
  | .bool b => b

/-- Python truthiness of `dict.get(key)`: a missing key gives `None`, which
is falsy. -/
def truthyOpt : Option YVal → Bool
  | none => false
  | some v => truthy v

/-- Python `isinstance(v, int)`; note that `bool` is a subclass of `int`. -/
def pyIsInt : YVal → Bool
  | .int _ => true
  | .bool _ => true
  | .str _ => false

/-- The integer value of a Python `int` (with `True == 1`, `False == 0`). -/
def pyIntVal : YVal → Int
  | .int n => n
  | .bool b => if b then 1 else 0
  | .str _ => 0

/-- Python `isinstance(v, str)`. -/
def pyIsStr : YVal → Bool
  | .str _ => true
  | _ => false

/-- The string payload of a `str` value. -/
def pyStrVal : YVal → String
  | .str s => s
  | _ => ""

/-- One detection result dict `{"name": ..., "confidence": ..., "primary"?}`;
an absent `primary` key is modelled as `primary = false`. -/
structure DetectionResult where
  name : String
  confidence : ℚ
  primary : Bool
deriving DecidableEq

/-- A parsed cache mapping (the YAML document as a dict).  Each field is
`none` when the key is absent.  `domains` is typed as the list of detection
results; `cache_version`, `structural_hash` and `override` keep their
dynamic scalar type because the code inspects their Python types. -/
structure CacheDoc where
  cache_version : Option YVal
  domains : Option (List DetectionResult)
  detected_at : Option String
  structural_hash : Option YVal
  override : Option YVal
deriving DecidableEq

/-- Parse outcome of an existing cache file: `yaml.safe_load` raised
(`unparseable`), parsed to something that is not a dict (`nonMapping`), or
parsed to a dict (`doc`). -/
inductive CacheFile where
  | unparseable
  | nonMapping
  | doc (d : CacheDoc)
deriving DecidableEq

/-- The filesystem slice the cache store sees: a map from path to the file
at that path (`none` = no file). -/
abbrev FS := String → Option CacheFile

/-- Models `read_cache(path)`: `None` if the file is absent or unparseable,
or parses to a non-dict, or its `domains` field is falsy (missing or an
empty list); otherwise the parsed dict. -/
def read_cache (fs : FS) (path : String) : Option CacheDoc :=
  match fs path with
  | none => none
  | some .unparseable => none
  | some .nonMapping => none
  | some (.doc d) =>
    match d.domains with
    | some (_ :: _) => some d
    | _ => none

/-- Models `CACHE_VERSION = 1`. -/
def CACHE_VERSION : Int := 1

/-- Models `sorted(STRUCTURAL_FILES)`: the fixed structural-file set of the
source, listed in Python sorted order (the set literal is unordered; the
hash iterates it sorted, and the membership tests are order-insensitive). -/
def STRUCTURAL_FILES : List String :=
  ["CMakeLists.txt", "Cargo.toml", "Gemfile", "Makefile",
   "build.gradle", "build.gradle.kts", "go.mod", "package.json",
   "pom.xml", "project.godot", "pyproject.toml", "requirements.txt"]

/-- Models `STRUCTURAL_EXTENSIONS`. -/
def STRUCTURAL_EXTENSIONS : List String :=
  [".gd", ".tscn", ".unity", ".uproject"]

/-- Models the per-file entry of `compute_structural_hash`: sha256 hex digest
of the file's bytes when the file is present and readable, the literal
sentinel `"__absent__"` when it is missing or unreadable (`OSError` on read
is collapsed into absence, exactly as in the source).  `pf` maps a structural
filename to the bytes of `project / name`. -/
def fileEntryHash (H : ByteSeq → String) (pf : String → Option ByteSeq)
    (name : String) : String :=
  match pf name with
  | some c => H c
  | none => "__absent__"

/-- Models `"\n".join(parts)`. -/
def joinNewline : List String → String
  | [] => ""
  | [p] => p
  | p :: ps => p ++ "\n" ++ joinNewline ps

/-- Models `compute_structural_hash(project)`: for each structural filename
in sorted order, the line `f"{name}:{file_hash}"`; the lines are joined with
newlines, a trailing newline appended, the result UTF-8 encoded (`Henc`) and
hashed (`H`), and the digest prefixed with `"sha256:"`. -/
def compute_structural_hash (H : ByteSeq → String) (Henc : String → ByteSeq)
    (pf : String → Option ByteSeq) : String :=
  let parts := STRUCTURAL_FILES.map (fun name => name ++ ":" ++ fileEntryHash H pf name)
  let combined := joinNewline parts ++ "\n"
  "sha256:" ++ H (Henc combined)

/-- The external world a staleness check observes: git subprocess results
(`none` models `TimeoutExpired` / `FileNotFoundError`), the datetime
library's ISO-8601 parser (as an epoch timestamp), and the on-disk
modification times of structural files (`none` models "not a regular file
or `stat` raised `OSError`"). -/
structure StaleEnv where
  hasGitDir : Bool
  shallowResult : Option (Int × String)
  logResult : Option (Int × String)
  renameResult : Option (Int × String)
  parseIso : String → Option Int
  mtime : String → Option Int

/-- Models `_parse_iso_datetime`: an empty string parses to `None`; otherwise
the datetime library (abstracted into the environment) decides. -/
def parse_iso_datetime (E : StaleEnv) (s : String) : Option Int :=
  if s == "" then none else E.parseIso s

/-! Characters are manipulated through `List Char`: the core `String`
loops (`replace`, `toLower`, `trim`, `splitOn`, ...) are re-expressed as
structural list recursions with the same semantics, so that concrete runs
reduce inside the kernel. -/

/-- Python `str.lower()` (ASCII case folding, as `Char.toLower`). -/
def strLower (s : String) : String := String.mk (s.data.map Char.toLower)

/-- ASCII whitespace as stripped by Python `str.strip()`. -/
def isPySpace (c : Char) : Bool :=
  c == ' ' || c == '\t' || c == '\n' || c == '\r' || c == '\x0b' || c == '\x0c'

/-- Python `str.strip()`. -/
def strTrim (s : String) : String :=
  String.mk (((s.data.dropWhile isPySpace).reverse.dropWhile isPySpace).reverse)

/-- Split a character list at every occurrence of the separator. -/
def splitOnChar (c : Char) : List Char → List (List Char)
  | [] => [[]]
  | x :: xs =>
    let r := splitOnChar c xs
    if x == c then [] :: r
    else
      match r with
      | [] => [[x]]
      | h :: t => (x :: h) :: t

/-- Python `s.split(sep)` for a one-character separator. -/
def strSplitChar (c : Char) (s : String) : List String :=
  (splitOnChar c s.data).map String.mk

/-- Python `c in s` for a single character. -/
def strContainsChar (s : String) (c : Char) : Bool := s.data.contains c

/-- Python `s.startswith(pre)`. -/
def strStartsWith (s pre : String) : Bool := pre.data.isPrefixOf s.data

/-- Models `os.path.basename` (the part after the last `/`). -/
def basename (p : String) : String :=
  (strSplitChar '/' p).getLastD p

/-- Index of the last occurrence of `c` in `cs`. -/
def lastIndexOf (c : Char) (cs : List Char) : Option Nat :=
  ((cs.enum.filter (fun p => p.2 == c)).getLast?).map (·.1)

/-- Models the extension component of `os.path.splitext`: the suffix from the
last dot, provided that dot comes after the last `/` and the basename is not
entirely dots up to it. -/
def splitextExt (p : String) : String :=
  match lastIndexOf '.' p.data with
  | none => ""
  | some di =>
    let si := ((lastIndexOf '/' p.data).map (· + 1)).getD 0
    if (List.range di).any (fun k => si ≤ k && p.data.getD k '.' != '.') then
      String.mk (p.data.drop di)
    else ""

/-- Models `_check_stale_tier1`: compare the stored `structural_hash` with a
freshly computed one; a falsy or non-string stored hash defers (`none`). -/
def check_stale_tier1 (H : ByteSeq → String) (Henc : String → ByteSeq)
    (pf : String → Option ByteSeq) (cache : CacheDoc) : Option Nat :=
  match cache.structural_hash with
  | none => none
  | some v =>
    if truthy v && pyIsStr v then
      if compute_structural_hash H Henc pf == pyStrVal v then some 0 else some 3
    else none

/-- Models `_check_stale_tier2`: inspect the git change log since
`detected_at`.  Subprocess invocations are environment observations; the
diagnostic printing of the source (`dry_run`, warnings) has no effect on
the verdict and is omitted. -/
def check_stale_tier2 (E : StaleEnv) (cache : CacheDoc) : Option Nat :=
  if !E.hasGitDir then none
  else
    let shallow :=
      match E.shallowResult with
      | some rs => rs.1 == 0 && strTrim rs.2 == "true"
      | none => false
    if shallow then none
    else
      match parse_iso_datetime E (cache.detected_at.getD "") with
      | none => some 3
      | some _ =>
        match E.logResult with
        | none => none
        | some lr =>
          if lr.1 != 0 then none
          else
            let changed := ((strSplitChar '\n' lr.2).map strTrim).filter (· != "")
            let triggersChanged := changed.any (fun f =>
              STRUCTURAL_FILES.contains (basename f) ||
              STRUCTURAL_EXTENSIONS.contains (splitextExt f))
            let triggersRename :=
              match E.renameResult with
              | none => false
              | some rr =>
                rr.1 == 0 &&
                (strSplitChar '\n' rr.2).any (fun line =>
                  let parts := strSplitChar '\t' (strTrim line)
                  decide (3 ≤ parts.length) &&
                  (STRUCTURAL_FILES.contains (basename (parts.getD 1 "")) !=
                   STRUCTURAL_FILES.contains (basename (parts.getD 2 ""))))
            if triggersChanged || triggersRename then some 3 else some 0

/-- Models `_check_stale_tier3`: any structural file with a modification
time newer than `detected_at` is stale; an unparseable timestamp is stale. -/
def check_stale_tier3 (E : StaleEnv) (cache : CacheDoc) : Nat :=
  match parse_iso_datetime E (cache.detected_at.getD "") with
  | none => 3
  | some t =>
    if STRUCTURAL_FILES.any (fun name =>
        match E.mtime name with
        | some m => decide (t < m)
        | none => false) then 3 else 0

/-- Models `check_stale(project, cache_path)`: read the cache (absent → 4);
truthy `override` → 0; missing or integer-mismatched `cache_version` → 3;
otherwise tier 1 (hash), tier 2 (git log), tier 3 (mtime), each deferring
to the next when it returns `None`. -/
def check_stale (E : StaleEnv) (H : ByteSeq → String) (Henc : String → ByteSeq)
    (pf : String → Option ByteSeq) (fs : FS) (cachePath : String) : Nat :=
  match read_cache fs cachePath with
  | none => 4
  | some c =>
    if truthyOpt c.override then 0
    else if (match c.cache_version with
             | none => true
             | some v => pyIsInt v && pyIntVal v != CACHE_VERSION) then 3
    else
      match check_stale_tier1 H Henc pf c with
      | some r => r
      | none =>
        match check_stale_tier2 E c with
        | some r => r
        | none => check_stale_tier3 E c

/-! ## Concrete sample inputs used by witnesses and counterexamples -/

/-- A sample detection result. -/
def sampleResult : DetectionResult := ⟨"web-api", 1/2, false⟩

/-- A staleness environment with no git directory and nothing observable. -/
def envNone : StaleEnv := ⟨false, none, none, none, fun _ => none, fun _ => none⟩

/-- A staleness environment in which tier 3 finds nothing newer than the
(parseable) detection timestamp: no git, timestamps all parse to epoch 0,
no structural file has a modification time. -/
def envMtimeFresh : StaleEnv := ⟨false, none, none, none, fun _ => some 0, fun _ => none⟩

/-- A cache document carrying `override: true` next to a mismatching stored
structural hash and a bogus integer `cache_version`. -/
def docOverride : CacheDoc :=
  ⟨some (.int 99), some [sampleResult], some "2024-01-01T00:00:00+00:00",
   some (.str "sha256:deadbeef"), some (.bool true)⟩

/-- A cache document whose `cache_version` is the string `"2"` (a value that
differs from the current schema version in type and content). -/
def docStrVersion : CacheDoc :=
  ⟨some (.str "2"), some [sampleResult], some "2024-01-01T00:00:00+00:00",
   none, none⟩

/-- A cache document with `cache_version: 0` (an integer older than the
current schema version). -/
def docOldVersion : CacheDoc :=
  ⟨some (.int 0), some [sampleResult], some "2024-01-01T00:00:00+00:00",
   none, none⟩

/-- A cache document whose `domains` key is present but the empty list. -/
def docEmptyDomains : CacheDoc :=
  ⟨some (.int 1), some [], some "2024-01-01T00:00:00+00:00", none, none⟩

/-! ## Claims about the staleness detector -/

/-- C4: for every readable, parseable cache artifact whose `override` field
is truthy (in particular `override: true`), `check_stale` returns 0 (FRESH)
for every environment, every hash function and every project state — i.e.
regardless of `cache_version`, of any stored structural-hash mismatch, and
of git history or modification times; the override is checked before
cache-version validation and before all three tiers. -/
theorem override_short_circuits (E : StaleEnv) (H : ByteSeq → String)
    (Henc : String → ByteSeq) (pf : String → Option ByteSeq) (fs : FS)
    (path : String) (d : CacheDoc)
    (hread : read_cache fs path = some d)
    (hov : truthyOpt d.override = true) :
    check_stale E H Henc pf fs path = 0 := by
  unfold check_stale
  rw [hread]
  simp [hov]

/-- Witness for C4: a concrete cache with `override: true`, a wrong
`cache_version` and a mismatching stored hash is reported fresh. -/
theorem override_short_circuits_witness :
    check_stale envNone (fun _ => "") (fun _ => []) (fun _ => none)
      (fun _ => some (.doc docOverride)) "cache" = 0 :=
  override_short_circuits envNone (fun _ => "") (fun _ => []) (fun _ => none)
    (fun _ => some (.doc docOverride)) "cache" docOverride rfl rfl

/-- C1 (counterexample to the claim as stated): a readable, parseable cache
without override whose `cache_version` is the *string* `"2"` — a value that
differs from the engine's schema version — is not reported stale: the check
falls through to the tiers and here returns 0 (FRESH) via tier 3. -/
theorem cache_version_string_not_stale :
    check_stale envMtimeFresh (fun _ => "") (fun _ => []) (fun _ => none)
      (fun _ => some (.doc docStrVersion)) "cache" = 0 := by
  decide

/-- C1 (amended): for every readable, parseable cache artifact without a
truthy override, if `cache_version` is missing, or is an integer (Python
`bool` included) different from the current schema version, then
`check_stale` returns 3 (STALE) for every environment, hash function and
project state — i.e. without consulting the hash, git, or mtime tiers.
(Non-integer `cache_version` values are not caught by this check.) -/
theorem cache_version_mismatch_stale (E : StaleEnv) (H : ByteSeq → String)
    (Henc : String → ByteSeq) (pf : String → Option ByteSeq) (fs : FS)
    (path : String) (d : CacheDoc)
    (hread : read_cache fs path = some d)
    (hov : truthyOpt d.override = false)
    (hver : d.cache_version = none ∨
      ∃ v, d.cache_version = some v ∧ pyIsInt v = true ∧ pyIntVal v ≠ CACHE_VERSION) :
    check_stale E H Henc pf fs path = 3 := by
  unfold check_stale
  rw [hread]
  rcases hver with h | ⟨v, hv, hint, hneq⟩
  · simp [hov, h]
  · simp [hov, hv, hint, hneq]

/-- Witness for C1 (amended): a concrete cache with `cache_version: 0` is
reported stale in an environment whose tiers would otherwise say fresh. -/
theorem cache_version_mismatch_stale_witness :
    check_stale envMtimeFresh (fun _ => "") (fun _ => []) (fun _ => none)
      (fun _ => some (.doc docOldVersion)) "cache" = 3 :=
  cache_version_mismatch_stale envMtimeFresh (fun _ => "") (fun _ => [])
    (fun _ => none) (fun _ => some (.doc docOldVersion)) "cache" docOldVersion
    rfl rfl (Or.inr ⟨.int 0, rfl, rfl, by decide⟩)

/-- C10: a cache file that parses to a mapping whose `domains` field is the
empty list is treated exactly as a missing cache: `read_cache` returns
`none`, and `check_stale` returns 4 (NO_CACHE) for every environment, hash
function and project state. -/
theorem empty_domains_treated_as_no_cache (E : StaleEnv) (H : ByteSeq → String)
    (Henc : String → ByteSeq) (pf : String → Option ByteSeq) (fs : FS)
    (path : String) (d : CacheDoc)
    (hfile : fs path = some (.doc d))
    (hdom : d.domains = some []) :
    read_cache fs path = none ∧ check_stale E H Henc pf fs path = 4 := by
  have hrd : read_cache fs path = none := by
    simp only [read_cache, hfile, hdom]
  refine ⟨hrd, ?_⟩
  unfold check_stale
  rw [hrd]

/-- Witness for C10: a concrete parseable cache with `domains: []` yields
no cache and exit code 4. -/
theorem empty_domains_treated_as_no_cache_witness :
    read_cache (fun _ => some (.doc docEmptyDomains)) "cache" = none ∧
    check_stale envNone (fun _ => "") (fun _ => []) (fun _ => none)
      (fun _ => some (.doc docEmptyDomains)) "cache" = 4 :=
  empty_domains_treated_as_no_cache envNone (fun _ => "") (fun _ => [])
    (fun _ => none) (fun _ => some (.doc docEmptyDomains)) "cache"
    docEmptyDomains rfl rfl

/-! ## Cache store: write_cache -/

/-- Point update of the filesystem map. -/
def updateFS (fs : FS) (path : String) (v : Option CacheFile) : FS :=
  fun q => if q = path then v else fs q

/-- Models the payload dict built by `write_cache`: current `CACHE_VERSION`,
the results list, the current UTC timestamp, and — when given — the
structural hash; no `override` key is ever written. -/
def writePayload (results : List DetectionResult) (now : String)
    (structural_hash : Option String) : CacheDoc :=
  ⟨some (.int CACHE_VERSION), some results, some now,
   structural_hash.map .str, none⟩

/-- Success/failure of each fallible step of `write_cache`, in program
order: `mkdir -p` of the parent, `mkstemp`, `os.write`, `os.fsync`,
`os.close`, `os.rename`, and the cleanup `os.unlink` (whose own failure the
source swallows with `except OSError: pass`). -/
structure WriteOracle where
  mkdirOk : Bool
  mkstempOk : Bool
  writeOk : Bool
  fsyncOk : Bool
  closeOk : Bool
  renameOk : Bool
  unlinkOk : Bool

/-- Models `write_cache(path, results, structural_hash)` as a state
transformer on the filesystem, returning the final filesystem and whether
an exception propagated to the caller (`true` = raised).  `tmp` is the
fresh temporary path `mkstemp` picks in the target directory; the YAML
serialisation is the identity on parsed documents, so the freshly created
empty temp file appears as a non-mapping document and the written temp file
as the payload document.  On any failure inside the `try` block the temp
file is unlinked (best effort) and the exception re-raised; only the final
atomic rename touches `path`. -/
def write_cache (o : WriteOracle) (fs : FS) (path tmp : String)
    (results : List DetectionResult) (now : String)
    (structural_hash : Option String) : FS × Bool :=
  if !o.mkdirOk then (fs, true)
  else if !o.mkstempOk then (fs, true)
  else
    let payload := writePayload results now structural_hash
    let fsT := updateFS fs tmp (some .nonMapping)
    let cleanup := fun (f : FS) => if o.unlinkOk then updateFS f tmp none else f
    if !o.writeOk then (cleanup fsT, true)
    else
      let fsW := updateFS fsT tmp (some (.doc payload))
      if !o.fsyncOk then (cleanup fsW, true)
      else if !o.closeOk then (cleanup fsW, true)
      else if !o.renameOk then (cleanup fsW, true)
      else (updateFS (updateFS fsW tmp none) path (some (.doc payload)), false)

/-- The all-success oracle. -/
def oracleOk : WriteOracle := ⟨true, true, true, true, true, true, true⟩

/-- An oracle in which the atomic rename fails and the cleanup `os.unlink`
of the temporary file also fails. -/
def oracleRenameAndUnlinkFail : WriteOracle := ⟨true, true, true, true, true, false, false⟩

/-- An empty filesystem. -/
def fsEmpty : FS := fun _ => none

/-- C8 (counterexample to the claim as stated): writing a cache artifact
with an *empty* detection-result list and reading it back from the same
path does not yield the written artifact — `read_cache` rejects the falsy
`domains` field and reports "no cache". -/
theorem write_read_empty_results_lost :
    read_cache
      (write_cache oracleOk fsEmpty "cache" "tmp0" [] "2024-01-01T00:00:00+00:00"
        (some "sha256:abc")).1 "cache" = none := by
  decide

/-- C8 (amended): for every *non-empty* detection result list and optional
structural hash, writing the cache artifact (all steps succeeding, the
temporary path fresh and distinct from the target) and then reading it back
from the same path yields an artifact with the same `domains` list, the
same `detected_at` string, and the same `structural_hash` as were
written. -/
theorem write_read_roundtrip (fs : FS) (path tmp : String)
    (results : List DetectionResult) (now : String) (sh : Option String)
    (hne : results ≠ [])
    (htmp : tmp ≠ path) :
    ∃ d, read_cache (write_cache oracleOk fs path tmp results now sh).1 path = some d ∧
      d.domains = some results ∧
      d.detected_at = some now ∧
      d.structural_hash = sh.map .str := by
  refine ⟨writePayload results now sh, ?_, rfl, rfl, rfl⟩
  have hfs : (write_cache oracleOk fs path tmp results now sh).1 path =
      some (.doc (writePayload results now sh)) := by
    simp [write_cache, oracleOk, updateFS]
  obtain ⟨r, rs, hr⟩ : ∃ r rs, results = r :: rs := by
    cases results with
    | nil => exact absurd rfl hne
    | cons a l => exact ⟨a, l, rfl⟩
  subst hr
  simp only [read_cache, hfs, writePayload]

/-- Witness for C8 (amended): a concrete one-element result list
round-trips through the cache store. -/
theorem write_read_roundtrip_witness :
    ∃ d, read_cache
        (write_cache oracleOk fsEmpty "cache" "tmp0" [sampleResult]
          "2024-01-01T00:00:00+00:00" (some "sha256:abc")).1 "cache" = some d ∧
      d.domains = some [sampleResult] ∧
      d.detected_at = some "2024-01-01T00:00:00+00:00" ∧
      d.structural_hash = (some "sha256:abc").map .str :=
  write_read_roundtrip fsEmpty "cache" "tmp0" [sampleResult]
    "2024-01-01T00:00:00+00:00" (some "sha256:abc") (by decide) (by decide)

/-- C9 (counterexample to the claim as stated): if the rename step fails
and the cleanup `os.unlink` of the temporary file itself fails (the source
swallows that `OSError`), the temporary file is *not* removed — it is still
present in the final filesystem — even though a step among
writing/syncing/renaming failed. -/
theorem write_failure_tmp_can_remain :
    ((write_cache oracleRenameAndUnlinkFail fsEmpty "cache" "tmp0" [sampleResult]
        "2024-01-01T00:00:00+00:00" none).1 "tmp0" ≠ none) ∧
    (write_cache oracleRenameAndUnlinkFail fsEmpty "cache" "tmp0" [sampleResult]
        "2024-01-01T00:00:00+00:00" none).2 = true := by
  constructor
  · intro h
    simp [write_cache, oracleRenameAndUnlinkFail, updateFS] at h
  · decide

/-- C9 (amended): take a fresh temporary path distinct from the target.
If any step inside the `try` block of a cache write fails (writing,
syncing, closing, or renaming the temporary file), the write operation
re-raises the error to the caller, leaves any previously existing cache
file at the target path unchanged, and — provided the cleanup unlink
itself succeeds — removes the temporary file.  On the success path the
target is replaced by the payload in the single atomic rename and the
temporary file is gone; the target path is never mutated otherwise. -/
theorem write_failure_leaves_target (o : WriteOracle) (fs : FS)
    (path tmp : String) (results : List DetectionResult) (now : String)
    (sh : Option String)
    (htmp : tmp ≠ path)
    (hpre : o.mkdirOk = true ∧ o.mkstempOk = true) :
    ((o.writeOk = false ∨ o.fsyncOk = false ∨ o.closeOk = false ∨ o.renameOk = false) →
      (write_cache o fs path tmp results now sh).2 = true ∧
      (write_cache o fs path tmp results now sh).1 path = fs path ∧
      (o.unlinkOk = true → (write_cache o fs path tmp results now sh).1 tmp = none)) ∧
    ((o.writeOk = true ∧ o.fsyncOk = true ∧ o.closeOk = true ∧ o.renameOk = true) →
      (write_cache o fs path tmp results now sh).2 = false ∧
      (write_cache o fs path tmp results now sh).1 path =
        some (.doc (writePayload results now sh)) ∧
      (write_cache o fs path tmp results now sh).1 tmp = none) := by
  obtain ⟨hmk, hms⟩ := hpre
  constructor
  · intro hfail
    have hsplit : (write_cache o fs path tmp results now sh).2 = true ∧
        (write_cache o fs path tmp results now sh).1 path = fs path ∧
        (o.unlinkOk = true → (write_cache o fs path tmp results now sh).1 tmp = none) := by
      rcases hfail with h | h | h | h <;>
        cases hu : o.unlinkOk <;>
        cases hw : o.writeOk <;>
        cases hf : o.fsyncOk <;>
        cases hc : o.closeOk <;>
        cases hrn : o.renameOk <;>
        simp_all [write_cache, updateFS, htmp, Ne.symm htmp]
    exact hsplit
  · rintro ⟨hw, hf, hc, hrn⟩
    simp [write_cache, updateFS, hmk, hms, hw, hf, hc, hrn, htmp, Ne.symm htmp]

/-- An oracle in which only `os.fsync` fails. -/
def oracleFsyncFail : WriteOracle := ⟨true, true, true, false, true, true, true⟩

/-- A filesystem with a pre-existing cache file at every path. -/
def fsWithCache : FS := fun _ => some (.doc docOverride)

/-- Witness for C9 (amended): with a concrete failing fsync (cleanup
unlink succeeding), the error propagates, the previously existing cache at
the target survives unchanged, and the temp file is removed; and the
all-success branch of the statement holds vacuously here. -/
theorem write_failure_leaves_target_witness :
    ((oracleFsyncFail.writeOk = false ∨ oracleFsyncFail.fsyncOk = false ∨
        oracleFsyncFail.closeOk = false ∨ oracleFsyncFail.renameOk = false) →
      (write_cache oracleFsyncFail fsWithCache "cache" "tmp0" [sampleResult] "now" none).2 = true ∧
      (write_cache oracleFsyncFail fsWithCache "cache" "tmp0" [sampleResult] "now" none).1 "cache" =
        fsWithCache "cache" ∧
      (oracleFsyncFail.unlinkOk = true →
        (write_cache oracleFsyncFail fsWithCache "cache" "tmp0" [sampleResult] "now" none).1 "tmp0" = none)) ∧
    ((oracleFsyncFail.writeOk = true ∧ oracleFsyncFail.fsyncOk = true ∧
        oracleFsyncFail.closeOk = true ∧ oracleFsyncFail.renameOk = true) →
      (write_cache oracleFsyncFail fsWithCache "cache" "tmp0" [sampleResult] "now" none).2 = false ∧
      (write_cache oracleFsyncFail fsWithCache "cache" "tmp0" [sampleResult] "now" none).1 "cache" =
        some (.doc (writePayload [sampleResult] "now" none)) ∧
      (write_cache oracleFsyncFail fsWithCache "cache" "tmp0" [sampleResult] "now" none).1 "tmp0" = none) :=
  write_failure_leaves_target oracleFsyncFail fsWithCache "cache" "tmp0"
    [sampleResult] "now" none (by decide) ⟨rfl, rfl⟩

/-! ## Structural hash: injectivity infrastructure -/

/-- Splitting at a separator: if two strings of newline-free characters are
followed by a newline and a remainder, equality of the concatenations forces
equality componentwise. -/
theorem newline_split (x : List Char) : ∀ (y r s : List Char), '\n' ∉ x → '\n' ∉ y →
    x ++ '\n' :: r = y ++ '\n' :: s → x = y ∧ r = s := by
  induction x with
  | nil =>
    intro y r s _ hy h
    cases y with
    | nil => exact ⟨rfl, by simpa using h⟩
    | cons d ys =>
      simp only [List.nil_append, List.cons_append, List.cons.injEq] at h
      exact absurd (List.mem_cons.mpr (Or.inl h.1)) hy
  | cons c xs ih =>
    intro y r s hx hy h
    cases y with
    | nil =>
      simp only [List.nil_append, List.cons_append, List.cons.injEq] at h
      exact absurd (List.mem_cons.mpr (Or.inl h.1.symm)) hx
    | cons d ys =>
      simp only [List.cons_append, List.cons.injEq] at h
      have hx2 : '\n' ∉ xs := fun hm => hx (List.mem_cons.mpr (Or.inr hm))
      have hy2 : '\n' ∉ ys := fun hm => hy (List.mem_cons.mpr (Or.inr hm))
      obtain ⟨h1, h2⟩ := ih ys r s hx2 hy2 h.2
      exact ⟨by rw [h.1, h1], h2⟩

/-- `joinNewline` is injective on lists of equal length whose entries are
newline-free. -/
theorem joinNewline_inj (l₁ : List String) : ∀ (l₂ : List String),
    l₁.length = l₂.length →
    (∀ t ∈ l₁, '\n' ∉ t.data) → (∀ t ∈ l₂, '\n' ∉ t.data) →
    joinNewline l₁ = joinNewline l₂ → l₁ = l₂ := by
  induction l₁ with
  | nil =>
    intro l₂ hlen _ _ _
    cases l₂ with
    | nil => rfl
    | cons b bs => simp at hlen
  | cons a as ih =>
    intro l₂ hlen h1 h2 heq
    cases l₂ with
    | nil => simp at hlen
    | cons b bs =>
      cases as with
      | nil =>
        cases bs with
        | nil => simpa [joinNewline] using heq
        | cons b2 bs2 => simp at hlen
      | cons a2 as2 =>
        cases bs with
        | nil => simp at hlen
        | cons b2 bs2 =>
          have hd : a.data ++ '\n' :: (joinNewline (a2 :: as2)).data
              = b.data ++ '\n' :: (joinNewline (b2 :: bs2)).data := by
            have hdata := congrArg String.data heq
            simpa [joinNewline, String.data_append] using hdata
          obtain ⟨hab, hrest⟩ := newline_split a.data b.data
            (joinNewline (a2 :: as2)).data (joinNewline (b2 :: bs2)).data
            (h1 a (by simp)) (h2 b (by simp)) hd
          have ha : a = b := String.ext hab
          have hj : joinNewline (a2 :: as2) = joinNewline (b2 :: bs2) := String.ext hrest
          have htail : (a2 :: as2) = (b2 :: bs2) :=
            ih (b2 :: bs2) (by simpa using hlen)
              (fun t ht => h1 t (List.mem_cons.mpr (Or.inr ht)))
              (fun t ht => h2 t (List.mem_cons.mpr (Or.inr ht))) hj
          rw [ha, htail]

/-- Appending on the left is injective for strings. -/
theorem string_append_left_inj (a : String) {b c : String} (h : a ++ b = a ++ c) :
    b = c := by
  apply String.ext
  have hd := congrArg String.data h
  simp only [String.data_append] at hd
  exact List.append_cancel_left hd

/-- Appending on the right is injective for strings. -/
theorem string_append_right_inj (c : String) {a b : String} (h : a ++ c = b ++ c) :
    a = b := by
  apply String.ext
  have hd := congrArg String.data h
  simp only [String.data_append] at hd
  exact List.append_cancel_right hd

/-- Every structural filename is newline-free. -/
theorem structural_names_newline_free : ∀ nm ∈ STRUCTURAL_FILES, '\n' ∉ nm.data := by
  decide

/-- The per-file hash entry is newline-free whenever `H` only produces
newline-free digests (the sentinel is newline-free as well). -/
theorem fileEntryHash_newline_free (H : ByteSeq → String)
    (pf : String → Option ByteSeq) (hnl : ∀ b, '\n' ∉ (H b).data) (name : String) :
    '\n' ∉ (fileEntryHash H pf name).data := by
  cases hpf : pf name with
  | none =>
    simp only [fileEntryHash, hpf]
    decide
  | some c =>
    simp only [fileEntryHash, hpf]
    exact hnl c

/-- A structural-hash line `name ++ ":" ++ entry` is newline-free when the
name and the entry are. -/
theorem hashLine_newline_free {nm e : String} (h1 : '\n' ∉ nm.data)
    (h2 : '\n' ∉ e.data) : '\n' ∉ (nm ++ ":" ++ e).data := by
  simp only [String.data_append]
  intro hm
  rcases List.mem_append.mp hm with hm1 | hm2
  · rcases List.mem_append.mp hm1 with hma | hmb
    · exact h1 hma
    · simp at hmb
  · exact h2 hm2

/-- If two project states produce the same structural hash and the hash
function is injective and produces newline-free digests, then the per-file
entries agree on every structural filename. -/
theorem structural_hash_entries_eq (H : ByteSeq → String) (Henc : String → ByteSeq)
    (pf₁ pf₂ : String → Option ByteSeq)
    (hinj : Function.Injective H) (hencInj : Function.Injective Henc)
    (hnl : ∀ b, '\n' ∉ (H b).data)
    (h : compute_structural_hash H Henc pf₁ = compute_structural_hash H Henc pf₂) :
    ∀ n ∈ STRUCTURAL_FILES, fileEntryHash H pf₁ n = fileEntryHash H pf₂ n := by
  unfold compute_structural_hash at h
  have hH := string_append_left_inj "sha256:" h
  have hCombined := hencInj (hinj hH)
  have hJoin := string_append_right_inj "\n" hCombined
  have hParts :
      STRUCTURAL_FILES.map (fun name => name ++ ":" ++ fileEntryHash H pf₁ name)
      = STRUCTURAL_FILES.map (fun name => name ++ ":" ++ fileEntryHash H pf₂ name) := by
    apply joinNewline_inj _ _ (by simp)
    · intro t ht
      obtain ⟨nm, hnm, rfl⟩ := List.mem_map.mp ht
      exact hashLine_newline_free (structural_names_newline_free nm hnm)
        (fileEntryHash_newline_free H pf₁ hnl nm)
    · intro t ht
      obtain ⟨nm, hnm, rfl⟩ := List.mem_map.mp ht
      exact hashLine_newline_free (structural_names_newline_free nm hnm)
        (fileEntryHash_newline_free H pf₂ hnl nm)
    · exact hJoin
  intro n hn
  have hline := List.map_inj_left.mp hParts n hn
  exact string_append_left_inj (n ++ ":") (by
    simpa [String.append_assoc] using hline)

/-- C7: the structural hash is a deterministic function of only the
presence/absence and byte contents of the fixed structural-file set:
(1) two projects whose structural files agree get the identical hash, no
matter what other files differ; (2) changing the content of one structural
file changes the hash; (3) removing one structural file changes the hash;
(4) the output is the fixed prefix `"sha256:"` followed by the digest of
the concatenation, in sorted filename order, of `name:hash` lines with the
sentinel `"__absent__"` for absent files.  Collision-freedom of sha256 is
idealised as injectivity of `H`; digests are newline-free hex strings,
hence never equal to the sentinel. -/
theorem structural_hash_spec (H : ByteSeq → String) (Henc : String → ByteSeq)
    (hinj : Function.Injective H) (hencInj : Function.Injective Henc)
    (hnl : ∀ b, '\n' ∉ (H b).data) (habs : ∀ b, H b ≠ "__absent__") :
    (∀ pf₁ pf₂ : String → Option ByteSeq,
       (∀ n ∈ STRUCTURAL_FILES, pf₁ n = pf₂ n) →
       compute_structural_hash H Henc pf₁ = compute_structural_hash H Henc pf₂)
    ∧ (∀ (pf₁ pf₂ : String → Option ByteSeq) (n : String) (c₁ c₂ : ByteSeq),
       n ∈ STRUCTURAL_FILES → pf₁ n = some c₁ → pf₂ n = some c₂ → c₁ ≠ c₂ →
       compute_structural_hash H Henc pf₁ ≠ compute_structural_hash H Henc pf₂)
    ∧ (∀ (pf₁ pf₂ : String → Option ByteSeq) (n : String) (c : ByteSeq),
       n ∈ STRUCTURAL_FILES → pf₁ n = some c → pf₂ n = none →
       compute_structural_hash H Henc pf₁ ≠ compute_structural_hash H Henc pf₂)
    ∧ (∀ pf : String → Option ByteSeq,
       compute_structural_hash H Henc pf =
         "sha256:" ++ H (Henc (joinNewline (STRUCTURAL_FILES.map
           (fun name => name ++ ":" ++ fileEntryHash H pf name)) ++ "\n"))) := by
  refine ⟨?_, ?_, ?_, fun pf => rfl⟩
  · intro pf₁ pf₂ hag
    unfold compute_structural_hash
    have hmap :
        STRUCTURAL_FILES.map (fun name => name ++ ":" ++ fileEntryHash H pf₁ name)
        = STRUCTURAL_FILES.map (fun name => name ++ ":" ++ fileEntryHash H pf₂ name) := by
      apply List.map_congr_left
      intro nm hnm
      unfold fileEntryHash
      rw [hag nm hnm]
    rw [hmap]
  · intro pf₁ pf₂ n c₁ c₂ hn h1 h2 hne h
    have hent := structural_hash_entries_eq H Henc pf₁ pf₂ hinj hencInj hnl h n hn
    simp only [fileEntryHash, h1, h2] at hent
    exact hne (hinj hent)
  · intro pf₁ pf₂ n c hn h1 h2 h
    have hent := structural_hash_entries_eq H Henc pf₁ pf₂ hinj hencInj hnl h n hn
    simp only [fileEntryHash, h1, h2] at hent
    exact habs c hent

/-! ## A concrete injective digest function for the hash witness -/

/-- Unary encoding of one byte: a marker `x` followed by `n` copies of `a`. -/
def unaryEnc (n : Nat) : List Char := 'x' :: List.replicate n 'a'

/-- A concrete injective stand-in for a digest function: concatenate the
unary encodings of the bytes. -/
def unaryHash (b : ByteSeq) : String := String.mk (b.map unaryEnc).join

/-- A concrete injective stand-in for UTF-8 encoding: the code points of
the characters. -/
def strBytes (s : String) : ByteSeq := s.data.map Char.toNat

/-- The unary chunk stream of a byte list is empty or starts with the
marker. -/
theorem unary_join_shape (b : List Nat) :
    (b.map unaryEnc).join = [] ∨ ∃ t, (b.map unaryEnc).join = 'x' :: t := by
  cases b with
  | nil => exact Or.inl rfl
  | cons n bs =>
    exact Or.inr ⟨List.replicate n 'a' ++ ((bs.map unaryEnc).join), by simp [unaryEnc]⟩

/-- Peeling one unary block: if both remainders are empty or start with the
marker, the block lengths and remainders agree. -/
theorem replicate_sep_inj (n : Nat) : ∀ (m : Nat) (r s : List Char),
    (r = [] ∨ ∃ t, r = 'x' :: t) → (s = [] ∨ ∃ t, s = 'x' :: t) →
    List.replicate n 'a' ++ r = List.replicate m 'a' ++ s → n = m ∧ r = s := by
  induction n with
  | zero =>
    intro m r s hr hs h
    cases m with
    | zero => exact ⟨rfl, by simpa using h⟩
    | succ k =>
      simp only [List.replicate_zero, List.replicate_succ, List.nil_append,
        List.cons_append] at h
      rcases hr with rfl | ⟨t, rfl⟩
      · exact List.noConfusion h
      · injection h with h1 _
        exact absurd h1 (by decide)
  | succ k ih =>
    intro m r s hr hs h
    cases m with
    | zero =>
      simp only [List.replicate_zero, List.replicate_succ, List.nil_append,
        List.cons_append] at h
      rcases hs with rfl | ⟨t, rfl⟩
      · exact List.noConfusion h
      · injection h with h1 _
        exact absurd h1 (by decide)
    | succ j =>
      simp only [List.replicate_succ, List.cons_append] at h
      injection h with _ h2
      obtain ⟨hnm, hrs⟩ := ih j r s hr hs h2
      exact ⟨by rw [hnm], hrs⟩

/-- The unary chunk stream determines the byte list. -/
theorem unary_join_inj (a : List Nat) : ∀ b : List Nat,
    (a.map unaryEnc).join = (b.map unaryEnc).join → a = b := by
  induction a with
  | nil =>
    intro b h
    cases b with
    | nil => rfl
    | cons m bs => simp [unaryEnc] at h
  | cons n as ih =>
    intro b h
    cases b with
    | nil => simp [unaryEnc] at h
    | cons m bs =>
      have h' : 'x' :: (List.replicate n 'a' ++ ((as.map unaryEnc).join))
          = 'x' :: (List.replicate m 'a' ++ ((bs.map unaryEnc).join)) := by
        simpa [unaryEnc] using h
      injection h' with _ h2
      obtain ⟨hnm, hrs⟩ := replicate_sep_inj n m _ _
        (unary_join_shape as) (unary_join_shape bs) h2
      rw [hnm, ih bs hrs]

/-- `unaryHash` is injective. -/
theorem unaryHash_injective : Function.Injective unaryHash := by
  intro a b h
  exact unary_join_inj a b (congrArg String.data h)

/-- Every character of a unary chunk stream is a marker or a filler. -/
theorem unary_join_chars (b : List Nat) :
    ∀ c ∈ (b.map unaryEnc).join, c = 'x' ∨ c = 'a' := by
  induction b with
  | nil =>
    intro c hc
    simp at hc
  | cons n bs ih =>
    intro c hc
    have hc' : c ∈ unaryEnc n ++ ((bs.map unaryEnc).join) := hc
    rcases List.mem_append.mp hc' with h1 | h2
    · rcases List.mem_cons.mp h1 with rfl | h1b
      · exact Or.inl rfl
      · exact Or.inr (List.eq_of_mem_replicate h1b)
    · exact ih c h2

/-- `unaryHash` digests are newline-free. -/
theorem unaryHash_newline_free (b : ByteSeq) : '\n' ∉ (unaryHash b).data := by
  intro hm
  rcases unary_join_chars b _ hm with h | h <;> exact absurd h (by decide)

/-- `unaryHash` never produces the absence sentinel. -/
theorem unaryHash_ne_absent (b : ByteSeq) : unaryHash b ≠ "__absent__" := by
  intro h
  have hd : (b.map unaryEnc).join = ("__absent__" : String).data :=
    congrArg String.data h
  have habs : ("__absent__" : String).data
      = ['_', '_', 'a', 'b', 's', 'e', 'n', 't', '_', '_'] := rfl
  rw [habs] at hd
  cases b with
  | nil => exact List.noConfusion hd
  | cons n bs =>
    have hd' : 'x' :: (List.replicate n 'a' ++ ((bs.map unaryEnc).join))
        = ['_', '_', 'a', 'b', 's', 'e', 'n', 't', '_', '_'] := by
      simpa [unaryEnc] using hd
    injection hd' with h1 _
    exact absurd h1 (by decide)

/-- `strBytes` is injective. -/
theorem strBytes_injective : Function.Injective strBytes := by
  intro a b h
  apply String.ext
  have hc : Function.Injective Char.toNat :=
    StrictMono.injective fun _ _ hab => hab
  exact List.map_injective_iff.mpr hc h

/-- Witness for C7: the hypotheses are satisfiable — instantiating the
digest with the concrete injective `unaryHash` and the encoding with the
concrete injective `strBytes` discharges every hypothesis. -/
theorem structural_hash_spec_witness :
    (∀ pf₁ pf₂ : String → Option ByteSeq,
       (∀ n ∈ STRUCTURAL_FILES, pf₁ n = pf₂ n) →
       compute_structural_hash unaryHash strBytes pf₁
         = compute_structural_hash unaryHash strBytes pf₂)
    ∧ (∀ (pf₁ pf₂ : String → Option ByteSeq) (n : String) (c₁ c₂ : ByteSeq),
       n ∈ STRUCTURAL_FILES → pf₁ n = some c₁ → pf₂ n = some c₂ → c₁ ≠ c₂ →
       compute_structural_hash unaryHash strBytes pf₁
         ≠ compute_structural_hash unaryHash strBytes pf₂)
    ∧ (∀ (pf₁ pf₂ : String → Option ByteSeq) (n : String) (c : ByteSeq),
       n ∈ STRUCTURAL_FILES → pf₁ n = some c → pf₂ n = none →
       compute_structural_hash unaryHash strBytes pf₁
         ≠ compute_structural_hash unaryHash strBytes pf₂)
    ∧ (∀ pf : String → Option ByteSeq,
       compute_structural_hash unaryHash strBytes pf =
         "sha256:" ++ unaryHash (strBytes (joinNewline (STRUCTURAL_FILES.map
           (fun name => name ++ ":" ++ fileEntryHash unaryHash pf name)) ++ "\n"))) :=
  structural_hash_spec unaryHash strBytes unaryHash_injective strBytes_injective
    unaryHash_newline_free unaryHash_ne_absent

/-! ## Project model for the detection engine -/

/-- A regular file as the scanner sees it: its name and its text content
(`none` models a file whose `read_text` raises `OSError`). -/
structure FileNode where
  name : String
  content : Option String
deriving DecidableEq

/-- One entry of the project root as yielded by `iterdir()`: a regular file,
or a directory with the regular files among its children (`none` models a
child `iterdir()` that raises `OSError`; non-file children of a subdirectory
are invisible to the scanner, which filters on `is_file()`). -/
inductive Entry where
  | file (f : FileNode)
  | dir (name : String) (children : Option (List FileNode))
deriving DecidableEq

/-- The parsed `package.json`, reduced to what `_parse_package_json_deps`
reads: the keys of the `dependencies` and `devDependencies` dicts (a missing
or non-dict section contributes no keys). -/
structure PkgJson where
  dependencies : List String
  devDependencies : List String
deriving DecidableEq

/-- The parsed `Cargo.toml`, reduced to what `_parse_cargo_toml_deps` reads:
the keys of the `dependencies`, `dev-dependencies` and `build-dependencies`
tables. -/
structure CargoToml where
  dependencies : List String
  devDependencies : List String
  buildDependencies : List String
deriving DecidableEq

/-- The parsed `pyproject.toml`, reduced to what `_parse_pyproject_deps`
reads: the PEP-621 `project.dependencies` requirement strings and the keys
of the `tool.poetry.dependencies` table. -/
structure PyprojectToml where
  projectDependencies : List String
  poetryDependencies : List String
deriving DecidableEq

/-- The project tree and manifests as the detection engine observes them.
`entries` is the root `iterdir()` listing (`none` models `OSError`);
`nestedDirs` lists the relative slash-containing paths for which
`(project / sig).is_dir()` holds.  Each manifest field is `none` when the
file is absent or its parse raises (both contribute an empty dependency
set, exactly as in the source); `goModRequires` holds the module-path
tokens matched by the `require` regexes of `_parse_go_mod_deps`. -/
structure Project where
  entries : Option (List Entry)
  nestedDirs : List String
  packageJson : Option PkgJson
  cargoToml : Option CargoToml
  goModRequires : Option (List String)
  pyproject : Option PyprojectToml
  requirementsTxt : Option String

/-- Models `SOURCE_EXTENSIONS`. -/
def SOURCE_EXTENSIONS : List String :=
  [".py", ".go", ".rs", ".ts", ".js", ".java", ".kt", ".swift", ".c",
   ".cpp", ".h", ".gd", ".dart"]

/-- Weights for signal categories: `W_DIR = 0.3`. -/
def W_DIR : ℚ := 3/10

/-- `W_FILE = 0.2`. -/
def W_FILE : ℚ := 1/5

/-- `W_FRAMEWORK = 0.3`. -/
def W_FRAMEWORK : ℚ := 3/10

/-- `W_KEYWORD = 0.2`. -/
def W_KEYWORD : ℚ := 1/5

/-- `matches / len(signals)` as exact rational division. -/
def signalRatio (matched total : Nat) : ℚ := (matched : ℚ) / (total : ℚ)

/-- Models `gather_directories`: the fraction of directory signals that
exist — top-level directory names for plain signals, `is_dir` on the
nested path for signals containing `/`. -/
def gather_directories (p : Project) (signals : List String) : ℚ :=
  if signals.isEmpty then 0
  else
    match p.entries with
    | none => 0
    | some es =>
      let existing := es.filterMap (fun e =>
        match e with
        | .dir n _ => some n
        | .file _ => none)
      signalRatio
        (signals.countP (fun sig =>
          if strContainsChar sig '/' then p.nestedDirs.contains sig
          else existing.contains sig))
        signals.length

/-! ### fnmatch: glob pattern matching (models Python `fnmatch.fnmatch` on
POSIX, where `normcase` is the identity) -/

/-- Scan for the closing `]` of a character class, returning the class body
and the remaining pattern. -/
def findClose : List Char → Option (List Char × List Char)
  | [] => none
  | c :: rest =>
    if c = ']' then some ([], rest)
    else (findClose rest).map (fun pr => (c :: pr.1, pr.2))

/-- Parse a character class after a leading negation marker has been
split off: a `]` in first position is literal. -/
def parseClassBody (neg : Bool) (ps1 : List Char) :
    Option (Bool × List Char × List Char) :=
  match ps1 with
  | ']' :: rest2 => (findClose rest2).map (fun q => (neg, ']' :: q.1, q.2))
  | _ => (findClose ps1).map (fun q => (neg, q.1, q.2))

/-- Parse the `[...]` character class starting right after `[`: an optional
`!` negation, then the body up to the closing `]`; `none` when there is no
closing `]` (the `[` is then a literal). -/
def parseClass : List Char → Option (Bool × List Char × List Char)
  | '!' :: ps1 => parseClassBody true ps1
  | ps => parseClassBody false ps

/-- Membership of a character in a class body, with `a-z` ranges. -/
def classMatch : List Char → Char → Bool
  | [], _ => false
  | a :: '-' :: b :: rest, c => (a ≤ c && c ≤ b) || classMatch rest c
  | a :: rest, c => (a == c) || classMatch rest c

/-- `findClose` consumes at least the closing bracket. -/
theorem findClose_rest_lt (l : List Char) : ∀ b r : List Char,
    findClose l = some (b, r) → r.length < l.length := by
  induction l with
  | nil =>
    intro b r h
    simp [findClose] at h
  | cons c rest ih =>
    intro b r h
    unfold findClose at h
    by_cases hc : c = ']'
    · rw [if_pos hc] at h
      have hin := (Option.some.injEq _ _).mp h
      have hr : r = rest := (congrArg Prod.snd hin).symm
      simp [hr]
    · rw [if_neg hc] at h
      obtain ⟨pr, hpr, hx⟩ := Option.map_eq_some'.mp h
      have hlt := ih pr.1 pr.2 (by simpa using hpr)
      have hr : r = pr.2 := (congrArg Prod.snd hx).symm
      simp only [hr, List.length_cons]
      omega

/-- `parseClassBody` consumes at least one character of its input. -/
theorem parseClassBody_rest_lt (neg : Bool) (ps1 : List Char)
    (x : Bool × List Char × List Char) (h : parseClassBody neg ps1 = some x) :
    x.2.2.length < ps1.length := by
  unfold parseClassBody at h
  split at h
  · rename_i rest2
    obtain ⟨q, hq, hx⟩ := Option.map_eq_some'.mp h
    have hlt := findClose_rest_lt rest2 q.1 q.2 (by simpa using hq)
    have hr : x.2.2 = q.2 := (congrArg (fun y => y.2.2) hx).symm
    simp only [hr, List.length_cons]
    omega
  · obtain ⟨q, hq, hx⟩ := Option.map_eq_some'.mp h
    have hlt := findClose_rest_lt ps1 q.1 q.2 (by simpa using hq)
    have hr : x.2.2 = q.2 := (congrArg (fun y => y.2.2) hx).symm
    rw [hr]
    exact hlt

/-- `parseClass` consumes at least one character of its input. -/
theorem parseClass_rest_lt (ps : List Char) (x : Bool × List Char × List Char)
    (h : parseClass ps = some x) : x.2.2.length < ps.length := by
  unfold parseClass at h
  split at h
  · rename_i ps1
    have := parseClassBody_rest_lt true ps1 x h
    simp only [List.length_cons]
    omega
  · exact parseClassBody_rest_lt false ps x h

/-- Models `fnmatch.fnmatch(name, pattern)` on POSIX: `*` matches any run,
`?` any single character, `[...]`/`[!...]` character classes with ranges,
an unterminated `[` is a literal.  First argument is the pattern, second
the name, both as character lists. -/
def globMatch : List Char → List Char → Bool
  | [], [] => true
  | [], _ :: _ => false
  | '*' :: ps, [] => globMatch ps []
  | '*' :: ps, c :: cs => globMatch ps (c :: cs) || globMatch ('*' :: ps) cs
  | '?' :: ps, _ :: cs => globMatch ps cs
  | '[' :: ps, c :: cs =>
    match hpc : parseClass ps with
    | none => ('[' == c) && globMatch ps cs
    | some ncr =>
      (if ncr.1 then !(classMatch ncr.2.1 c) else classMatch ncr.2.1 c)
        && globMatch ncr.2.2 cs
  | pc :: ps, c :: cs => (pc == c) && globMatch ps cs
  | _ :: _, [] => false
termination_by p s => p.length + s.length
decreasing_by
  all_goals simp_wf
  all_goals try omega
  have := parseClass_rest_lt ps ncr hpc
  omega

/-- Models `gather_files`: filenames are collected from the project root
and from one level inside non-hidden subdirectories; the score is the
fraction of glob-pattern signals matching at least one filename. -/
def gather_files (p : Project) (signals : List String) : ℚ :=
  if signals.isEmpty then 0
  else
    match p.entries with
    | none => 0
    | some es =>
      let filenames := (es.map (fun e =>
        match e with
        | .file f => [f.name]
        | .dir n children =>
          if strStartsWith n "." then []
          else (children.getD []).map (fun c => c.name))).flatten
      signalRatio
        (signals.countP (fun sig =>
          filenames.any (fun f => globMatch sig.data f.data)))
        signals.length

/-- Models `re.split(r"[>=<!\[; ]", s)[0]`: the prefix of `s` before the
first delimiter character. -/
def specPrefix (s : String) : String :=
  String.mk (s.data.takeWhile (fun c =>
    !(c == '>' || c == '=' || c == '<' || c == '!' || c == '[' || c == ';' || c == ' ')))

/-- Models `_parse_package_json_deps`: the keys of the `dependencies` and
`devDependencies` dicts, verbatim (no case folding). -/
def parse_package_json_deps (p : Project) : List String :=
  match p.packageJson with
  | none => []
  | some j => j.dependencies ++ j.devDependencies

/-- Models `_parse_cargo_toml_deps`: the keys of the three dependency
tables, verbatim (no case folding). -/
def parse_cargo_toml_deps (p : Project) : List String :=
  match p.cargoToml with
  | none => []
  | some t => t.dependencies ++ t.devDependencies ++ t.buildDependencies

/-- Models `_parse_go_mod_deps`: for each matched module path, the last
`/`-segment, lower-cased. -/
def parse_go_mod_deps (p : Project) : List String :=
  match p.goModRequires with
  | none => []
  | some ms => ms.map (fun m => strLower ((strSplitChar '/' m).getLastD m))

/-- Models `_parse_pyproject_deps`: PEP-621 requirement strings reduced to
their name (first delimiter-split token, stripped, lower-cased, empties
dropped), plus poetry table keys lower-cased with the `python`
pseudo-dependency excluded. -/
def parse_pyproject_deps (p : Project) : List String :=
  match p.pyproject with
  | none => []
  | some t =>
    ((t.projectDependencies.map (fun dep => strLower (strTrim (specPrefix dep)))).filter
        (fun name => name != ""))
      ++ ((t.poetryDependencies.filter (fun k => strLower k != "python")).map
        (fun k => strLower k))

/-- Models `_parse_requirements_txt`: one package per stripped line,
skipping blanks, comments and option lines, the name being the first
delimiter-split token, stripped and lower-cased. -/
def parse_requirements_txt (p : Project) : List String :=
  match p.requirementsTxt with
  | none => []
  | some text =>
    ((((strSplitChar '\n' text).map (fun line => strTrim line)).filter
        (fun line => line != "" && !(strStartsWith line "#") && !(strStartsWith line "-"))).map
      (fun line => strLower (strTrim (specPrefix line)))).filter (fun name => name != "")

/-- Models the normalisation of `gather_frameworks`, i.e.
`d.replace("-", "").replace("_", "")`: remove every hyphen and underscore.
Note: the source comment announces lower-casing as well, but the code
performs none. -/
def stripHyphensUnderscores (s : String) : String :=
  String.mk (s.data.filter (fun c => !(c == '-' || c == '_')))

/-- Models `gather_frameworks`: pool the five parsers' outputs, strip
hyphens/underscores from the pooled names and from each signal, and score
the fraction of signals found in the pool. -/
def gather_frameworks (p : Project) (signals : List String) : ℚ :=
  if signals.isEmpty then 0
  else
    let all_deps := parse_package_json_deps p ++ parse_cargo_toml_deps p
      ++ parse_go_mod_deps p ++ parse_pyproject_deps p ++ parse_requirements_txt p
    let normalised := all_deps.map stripHyphensUnderscores
    signalRatio
      (signals.countP (fun sig => normalised.contains (stripHyphensUnderscores sig)))
      signals.length

/-- Models `pathlib.Path.suffix`: the substring from the last dot of the
name when that dot is neither first nor last. -/
def pathSuffix (name : String) : String :=
  match lastIndexOf '.' name.data with
  | none => ""
  | some i =>
    if 0 < i && i + 1 < name.data.length then String.mk (name.data.drop i) else ""

/-- `entry.suffix in SOURCE_EXTENSIONS`. -/
def isSourceFile (name : String) : Bool := SOURCE_EXTENSIONS.contains (pathSuffix name)

/-- The name of a root entry (used for the `sorted(project.iterdir())`
ordering, which inside one directory is the name ordering). -/
def entryName : Entry → String
  | .file f => f.name
  | .dir n _ => n

/-- Models `sorted(entry.iterdir())` restricted to the visible files. -/
def sortedFiles (fs : List FileNode) : List FileNode :=
  List.insertionSort (fun a b => a.name ≤ b.name) fs

/-- Models `sorted(project.iterdir())`. -/
def sortedEntries (es : List Entry) : List Entry :=
  List.insertionSort (fun a b => entryName a ≤ entryName b) es

/-- Models the inner collection loop of `gather_keywords` over one
subdirectory: append source files, breaking right after the append that
reaches the cap. -/
def collectInner (cap : Nat) : List FileNode → List FileNode → List FileNode
  | acc, [] => acc
  | acc, c :: rest =>
    if isSourceFile c.name then
      if cap ≤ acc.length + 1 then acc ++ [c]
      else collectInner cap (acc ++ [c]) rest
    else collectInner cap acc rest

/-- Models the outer collection loop of `gather_keywords`: root source
files and one level of non-hidden subdirectories, breaking after any entry
once the cap is reached. -/
def collectOuter (cap : Nat) : List FileNode → List Entry → List FileNode
  | acc, [] => acc
  | acc, e :: rest =>
    let acc2 := match e with
      | .file f => if isSourceFile f.name then acc ++ [f] else acc
      | .dir n children =>
        if strStartsWith n "." then acc
        else match children with
          | none => acc
          | some cs => collectInner cap acc (sortedFiles cs)
    if cap ≤ acc2.length then acc2 else collectOuter cap acc2 rest

/-- Models `gather_keywords`: sample up to `limit` source files (scanning
at most `limit * 3` candidates breadth-first in sorted order), concatenate
their texts with newlines (unreadable files skipped), and score the
fraction of keywords occurring case-insensitively in the combined text. -/
def gather_keywords (p : Project) (signals : List String) (limit : Nat) : ℚ :=
  if signals.isEmpty then 0
  else
    match p.entries with
    | none => 0
    | some es =>
      let source_files := (collectOuter (limit * 3) [] (sortedEntries es)).take limit
      if source_files.isEmpty then 0
      else
        let combined := source_files.foldl (fun s f =>
          match f.content with
          | some t => s ++ t ++ "\n"
          | none => s) ""
        if combined == "" then 0
        else
          let combined_lower := strLower combined
          signalRatio
            (signals.countP (fun kw =>
              combined_lower.data.tails.any (fun t => (strLower kw).data.isPrefixOf t)))
            signals.length

/-- Models `score_domain`: the weighted sum of the four category scores. -/
def score_domain (dir_score file_score fw_score kw_score : ℚ) : ℚ :=
  dir_score * W_DIR + file_score * W_FILE + fw_score * W_FRAMEWORK + kw_score * W_KEYWORD

/-- A domain entry of the external catalogue (`DomainSpec.__init__`). -/
structure DomainSpec where
  profile : String
  min_confidence : ℚ
  directories : List String
  files : List String
  frameworks : List String
  keywords : List String
deriving DecidableEq

/-- Executable floor of a rational (`num.fdiv den`, exact since den > 0). -/
def ratFloor (q : ℚ) : ℤ := q.num.fdiv (q.den : ℤ)

/-- Python `round` to the nearest integer, ties to even (banker's
rounding), idealised over ℚ. -/
def roundHalfEven (q : ℚ) : ℤ :=
  if q - (ratFloor q : ℚ) < 1/2 then ratFloor q
  else if (1/2 : ℚ) < q - (ratFloor q : ℚ) then ratFloor q + 1
  else if ratFloor q % 2 = 0 then ratFloor q else ratFloor q + 1

/-- Models `round(confidence, 2)`. -/
def roundTo2 (q : ℚ) : ℚ := ((roundHalfEven (q * 100) : ℤ) : ℚ) / 100

/-- Models the preliminary directory+file+framework sum of `detect`. -/
def preliminaryOf (p : Project) (spec : DomainSpec) : ℚ :=
  gather_directories p spec.directories * W_DIR
    + gather_files p spec.files * W_FILE
    + gather_frameworks p spec.frameworks * W_FRAMEWORK

/-- Models the confidence `detect` computes for one spec: the preliminary
sum when the keyword shortcut fires, the full weighted score otherwise. -/
def confidenceOf (p : Project) (spec : DomainSpec) (skip_keywords_threshold : Bool) : ℚ :=
  if skip_keywords_threshold && decide (spec.min_confidence ≤ preliminaryOf p spec) then
    preliminaryOf p spec
  else
    score_domain (gather_directories p spec.directories) (gather_files p spec.files)
      (gather_frameworks p spec.frameworks) (gather_keywords p spec.keywords 5)

/-- Marks a result as primary (`results[0]["primary"] = True`). -/
def mkPrimary (r : DetectionResult) : DetectionResult := ⟨r.name, r.confidence, true⟩

/-- Marks the first result of a sorted list as primary. -/
def markPrimary : List DetectionResult → List DetectionResult
  | [] => []
  | h :: t => mkPrimary h :: t

/-- Models `detect`: score every spec, keep those meeting their own
threshold with the 2-decimal-rounded confidence, sort descending by
confidence (stably, as Python's sort), and mark the first as primary. -/
def detect (p : Project) (domains : List DomainSpec) (skip_keywords_threshold : Bool) :
    List DetectionResult :=
  let results := domains.filterMap (fun spec =>
    if spec.min_confidence ≤ confidenceOf p spec skip_keywords_threshold then
      some (⟨spec.profile, roundTo2 (confidenceOf p spec skip_keywords_threshold),
        false⟩ : DetectionResult)
    else none)
  markPrimary (List.insertionSort (fun a b => b.confidence ≤ a.confidence) results)

/-! ## Bounds on the signal scores -/

/-- A nonempty list has nonzero length. -/
theorem length_ne_zero_of_not_isEmpty {α : Type} {l : List α}
    (h : l.isEmpty = false) : l.length ≠ 0 := by
  cases l with
  | nil => simp at h
  | cons a t => simp

/-- `matches / total` lies in `[0, 1]` when `matches ≤ total` and the list
is nonempty. -/
theorem signalRatio_bounds (matched total : Nat) (h : matched ≤ total)
    (h0 : total ≠ 0) :
    0 ≤ signalRatio matched total ∧ signalRatio matched total ≤ 1 := by
  unfold signalRatio
  constructor
  · positivity
  · rw [div_le_one (by exact_mod_cast Nat.pos_of_ne_zero h0)]
    exact_mod_cast h

/-- The directory score lies in `[0, 1]`. -/
theorem gather_directories_bounds (p : Project) (signals : List String) :
    0 ≤ gather_directories p signals ∧ gather_directories p signals ≤ 1 := by
  unfold gather_directories
  by_cases h : signals.isEmpty
  · simp [h]
  · rw [if_neg h]
    cases hp : p.entries with
    | none => norm_num
    | some es =>
      exact signalRatio_bounds _ _ (List.countP_le_length _)
        (length_ne_zero_of_not_isEmpty (Bool.not_eq_true _ ▸ Bool.of_not_eq_true h))

/-- The file score lies in `[0, 1]`. -/
theorem gather_files_bounds (p : Project) (signals : List String) :
    0 ≤ gather_files p signals ∧ gather_files p signals ≤ 1 := by
  unfold gather_files
  by_cases h : signals.isEmpty
  · simp [h]
  · rw [if_neg h]
    cases hp : p.entries with
    | none => norm_num
    | some es =>
      exact signalRatio_bounds _ _ (List.countP_le_length _)
        (length_ne_zero_of_not_isEmpty (Bool.not_eq_true _ ▸ Bool.of_not_eq_true h))

/-- The framework score lies in `[0, 1]`. -/
theorem gather_frameworks_bounds (p : Project) (signals : List String) :
    0 ≤ gather_frameworks p signals ∧ gather_frameworks p signals ≤ 1 := by
  unfold gather_frameworks
  by_cases h : signals.isEmpty
  · simp [h]
  · rw [if_neg h]
    exact signalRatio_bounds _ _ (List.countP_le_length _)
      (length_ne_zero_of_not_isEmpty (Bool.not_eq_true _ ▸ Bool.of_not_eq_true h))

/-- The keyword score lies in `[0, 1]`. -/
theorem gather_keywords_bounds (p : Project) (signals : List String) (limit : Nat) :
    0 ≤ gather_keywords p signals limit ∧ gather_keywords p signals limit ≤ 1 := by
  unfold gather_keywords
  by_cases h : signals.isEmpty
  · simp [h]
  · rw [if_neg h]
    cases hp : p.entries with
    | none => norm_num
    | some es =>
      dsimp only
      split_ifs
      · norm_num
      · norm_num
      · exact signalRatio_bounds _ _ (List.countP_le_length _)
          (length_ne_zero_of_not_isEmpty (Bool.not_eq_true _ ▸ Bool.of_not_eq_true h))

/-- The weighted sum of four scores in `[0, 1]` lies in `[0, 1]` (the
weights 0.3/0.2/0.3/0.2 are non-negative and sum to 1). -/
theorem score_domain_bounds {d f fw kw : ℚ}
    (hd : 0 ≤ d ∧ d ≤ 1) (hf : 0 ≤ f ∧ f ≤ 1)
    (hfw : 0 ≤ fw ∧ fw ≤ 1) (hkw : 0 ≤ kw ∧ kw ≤ 1) :
    0 ≤ score_domain d f fw kw ∧ score_domain d f fw kw ≤ 1 := by
  obtain ⟨hd0, hd1⟩ := hd
  obtain ⟨hf0, hf1⟩ := hf
  obtain ⟨hfw0, hfw1⟩ := hfw
  obtain ⟨hkw0, hkw1⟩ := hkw
  unfold score_domain W_DIR W_FILE W_FRAMEWORK W_KEYWORD
  constructor <;> nlinarith

/-- The preliminary directory+file+framework sum lies in `[0, 1]`. -/
theorem preliminaryOf_bounds (p : Project) (spec : DomainSpec) :
    0 ≤ preliminaryOf p spec ∧ preliminaryOf p spec ≤ 1 := by
  obtain ⟨h10, h11⟩ := gather_directories_bounds p spec.directories
  obtain ⟨h20, h21⟩ := gather_files_bounds p spec.files
  obtain ⟨h30, h31⟩ := gather_frameworks_bounds p spec.frameworks
  unfold preliminaryOf W_DIR W_FILE W_FRAMEWORK
  constructor <;> nlinarith

/-- The confidence `detect` computes lies in `[0, 1]` under either setting
of the keyword shortcut. -/
theorem confidenceOf_bounds (p : Project) (spec : DomainSpec) (skip : Bool) :
    0 ≤ confidenceOf p spec skip ∧ confidenceOf p spec skip ≤ 1 := by
  unfold confidenceOf
  split
  · exact preliminaryOf_bounds p spec
  · exact score_domain_bounds (gather_directories_bounds p spec.directories)
      (gather_files_bounds p spec.files) (gather_frameworks_bounds p spec.frameworks)
      (gather_keywords_bounds p spec.keywords 5)

/-- The full weighted score is the preliminary sum plus the weighted
keyword score. -/
theorem score_domain_split (p : Project) (spec : DomainSpec) :
    score_domain (gather_directories p spec.directories) (gather_files p spec.files)
      (gather_frameworks p spec.frameworks) (gather_keywords p spec.keywords 5)
    = preliminaryOf p spec + gather_keywords p spec.keywords 5 * W_KEYWORD := by
  unfold score_domain preliminaryOf
  ring

/-- A domain clears its threshold with the keyword shortcut enabled iff it
clears it with the shortcut disabled (keyword scores are non-negative and
the keyword weight is non-negative, so the full score never falls below
the preliminary sum once the preliminary sum clears the bar). -/
theorem confidence_pass_iff (p : Project) (spec : DomainSpec) :
    spec.min_confidence ≤ confidenceOf p spec true ↔
      spec.min_confidence ≤ confidenceOf p spec false := by
  unfold confidenceOf
  by_cases h : spec.min_confidence ≤ preliminaryOf p spec
  · rw [if_pos (by simp [h]), if_neg (by simp)]
    rw [score_domain_split]
    have hk := (gather_keywords_bounds p spec.keywords 5).1
    have hw : (0 : ℚ) ≤ W_KEYWORD := by norm_num [W_KEYWORD]
    have hkw : 0 ≤ gather_keywords p spec.keywords 5 * W_KEYWORD := mul_nonneg hk hw
    constructor
    · intro _
      linarith
    · intro _
      exact h
  · rw [if_neg (by simp [h]), if_neg (by simp)]

/-! ## detect: membership, ordering and primary marking -/

/-- `filterMap` with an if-some-else-none body is map-after-filter. -/
theorem filterMap_if_eq {α β : Type} (pr : α → Prop) [DecidablePred pr]
    (g : α → β) (l : List α) :
    l.filterMap (fun a => if pr a then some (g a) else none)
      = (l.filter (fun a => decide (pr a))).map g := by
  induction l with
  | nil => rfl
  | cons a t ih =>
    by_cases h : pr a <;> simp [h, ih]

/-- The relation `detect` sorts by is total. -/
instance : IsTotal DetectionResult (fun a b => b.confidence ≤ a.confidence) :=
  ⟨fun a b => le_total b.confidence a.confidence⟩

/-- The relation `detect` sorts by is transitive. -/
instance : IsTrans DetectionResult (fun a b => b.confidence ≤ a.confidence) :=
  ⟨fun _ _ _ hab hbc => le_trans hbc hab⟩

/-- Marking the head as primary does not change the reported names. -/
theorem markPrimary_map_name (l : List DetectionResult) :
    (markPrimary l).map (fun r => r.name) = l.map (fun r => r.name) := by
  cases l with
  | nil => rfl
  | cons h t => simp [markPrimary, mkPrimary]

/-- The names reported by `detect` are, up to permutation, exactly the
profiles of the specs whose confidence clears their own threshold. -/
theorem detect_names_perm (p : Project) (domains : List DomainSpec) (skip : Bool) :
    ((detect p domains skip).map (fun r => r.name)).Perm
      ((domains.filter (fun s =>
          decide (s.min_confidence ≤ confidenceOf p s skip))).map
        (fun s => s.profile)) := by
  unfold detect
  rw [markPrimary_map_name]
  have hperm := (List.perm_insertionSort
    (fun a b : DetectionResult => b.confidence ≤ a.confidence)
    (domains.filterMap (fun spec =>
      if spec.min_confidence ≤ confidenceOf p spec skip then
        some (⟨spec.profile, roundTo2 (confidenceOf p spec skip), false⟩ : DetectionResult)
      else none))).map (fun r => r.name)
  refine hperm.trans ?_
  rw [filterMap_if_eq (fun spec => spec.min_confidence ≤ confidenceOf p spec skip)
    (fun spec => (⟨spec.profile, roundTo2 (confidenceOf p spec skip), false⟩ : DetectionResult))]
  rw [List.map_map]
  exact List.Perm.refl _

/-- C5: for every project and spec list, the computed confidence of every
spec lies in `[0, 1]`; the reported names are, up to the descending sort,
exactly the profiles of the specs whose confidence meets their own
`min_confidence`; and (for catalogues with distinct profiles, as the
domain index has) a domain appears in the result list iff its confidence
is at least its `min_confidence`. -/
theorem confidence_bounds_threshold (p : Project) (domains : List DomainSpec)
    (skip : Bool) :
    (∀ spec ∈ domains, 0 ≤ confidenceOf p spec skip ∧ confidenceOf p spec skip ≤ 1)
    ∧ ((detect p domains skip).map (fun r => r.name)).Perm
        ((domains.filter (fun s =>
            decide (s.min_confidence ≤ confidenceOf p s skip))).map
          (fun s => s.profile))
    ∧ ((domains.map (fun s => s.profile)).Nodup →
        ∀ spec ∈ domains,
          (spec.profile ∈ (detect p domains skip).map (fun r => r.name) ↔
            spec.min_confidence ≤ confidenceOf p spec skip)) := by
  refine ⟨fun spec _ => confidenceOf_bounds p spec skip,
    detect_names_perm p domains skip, ?_⟩
  intro hnd spec hspec
  rw [(detect_names_perm p domains skip).mem_iff]
  constructor
  · intro hmem
    obtain ⟨s, hs, hps⟩ := List.mem_map.mp hmem
    have hsf := List.mem_filter.mp hs
    have hseq : s = spec := List.inj_on_of_nodup_map hnd hsf.1 hspec hps
    have hpass := of_decide_eq_true hsf.2
    exact hseq ▸ hpass
  · intro hpass
    exact List.mem_map.mpr
      ⟨spec, List.mem_filter.mpr ⟨hspec, decide_eq_true hpass⟩, rfl⟩

/-- A project with an empty (but listable) root and no manifests. -/
def projEmpty : Project := ⟨some [], [], none, none, none, none, none⟩

/-- A spec with threshold 0 and no signals (always detected). -/
def specAlways : DomainSpec := ⟨"web-api", 0, [], [], [], []⟩

/-- Witness for C5 at a concrete project and catalogue. -/
theorem confidence_bounds_threshold_witness :
    (∀ spec ∈ [specAlways],
      0 ≤ confidenceOf projEmpty spec true ∧ confidenceOf projEmpty spec true ≤ 1)
    ∧ ((detect projEmpty [specAlways] true).map (fun r => r.name)).Perm
        (([specAlways].filter (fun s =>
            decide (s.min_confidence ≤ confidenceOf projEmpty s true))).map
          (fun s => s.profile))
    ∧ (([specAlways].map (fun s => s.profile)).Nodup →
        ∀ spec ∈ [specAlways],
          (spec.profile ∈ (detect projEmpty [specAlways] true).map (fun r => r.name) ↔
            spec.min_confidence ≤ confidenceOf projEmpty spec true)) :=
  confidence_bounds_threshold projEmpty [specAlways] true

/-- Marking the head of a descending-sorted list of non-primary results
yields a descending-sorted list whose head (if any) is the unique primary
element. -/
theorem markPrimary_spec (l : List DetectionResult)
    (hsorted : l.Pairwise (fun a b => b.confidence ≤ a.confidence))
    (hfalse : ∀ r ∈ l, r.primary = false) :
    (markPrimary l).Pairwise (fun a b => b.confidence ≤ a.confidence)
    ∧ (∀ r, (markPrimary l).head? = some r → r.primary = true)
    ∧ (∀ r ∈ (markPrimary l).tail, r.primary = false) := by
  cases l with
  | nil =>
    refine ⟨List.Pairwise.nil, ?_, ?_⟩
    · intro r hr
      simp [markPrimary] at hr
    · intro r hr
      simp [markPrimary] at hr
  | cons h t =>
    obtain ⟨hrel, hpt⟩ := List.pairwise_cons.mp hsorted
    refine ⟨List.pairwise_cons.mpr ⟨fun b hb => hrel b hb, hpt⟩, ?_, ?_⟩
    · intro r hr
      have hre : mkPrimary h = r := (Option.some.injEq _ _).mp hr
      rw [← hre]
      rfl
    · intro r hr
      exact hfalse r (List.mem_cons.mpr (Or.inr hr))

/-- C6: every detection result list is sorted in descending order of
confidence; when non-empty, exactly its first element carries
`primary = true` and every later element lacks the mark (so at most one
element is ever primary, and none in an empty list). -/
theorem detect_sorted_primary (p : Project) (domains : List DomainSpec) (skip : Bool) :
    (detect p domains skip).Pairwise (fun a b => b.confidence ≤ a.confidence)
    ∧ (∀ r, (detect p domains skip).head? = some r → r.primary = true)
    ∧ (∀ r ∈ (detect p domains skip).tail, r.primary = false) := by
  unfold detect
  apply markPrimary_spec
  · exact List.sorted_insertionSort
      (fun a b : DetectionResult => b.confidence ≤ a.confidence) _
  · intro r hr
    have hr2 := (List.mem_insertionSort
      (fun a b : DetectionResult => b.confidence ≤ a.confidence)).mp hr
    obtain ⟨spec, hspec, heq⟩ := List.mem_filterMap.mp hr2
    by_cases hc : spec.min_confidence ≤ confidenceOf p spec skip
    · rw [if_pos hc] at heq
      have := (Option.some.injEq _ _).mp heq
      rw [← this]
    · rw [if_neg hc] at heq
      exact Option.noConfusion heq

/-- Witness for C6 at a concrete project and catalogue. -/
theorem detect_sorted_primary_witness :
    (detect projEmpty [specAlways] true).Pairwise
        (fun a b => b.confidence ≤ a.confidence)
    ∧ (∀ r, (detect projEmpty [specAlways] true).head? = some r → r.primary = true)
    ∧ (∀ r ∈ (detect projEmpty [specAlways] true).tail, r.primary = false) :=
  detect_sorted_primary projEmpty [specAlways] true

/-- C3: the keyword-skip shortcut is correctness-preserving — with and
without the shortcut, `detect` reports exactly the same set of domain
names (weights are non-negative, and whenever the shortcut fires the
preliminary sum already meets the threshold, which the keyword term can
only raise). -/
theorem skip_shortcut_same_names (p : Project) (domains : List DomainSpec) :
    ∀ n, (n ∈ (detect p domains true).map (fun r => r.name) ↔
      n ∈ (detect p domains false).map (fun r => r.name)) := by
  intro n
  rw [(detect_names_perm p domains true).mem_iff,
    (detect_names_perm p domains false).mem_iff]
  have hfil : domains.filter (fun s =>
        decide (s.min_confidence ≤ confidenceOf p s true))
      = domains.filter (fun s =>
        decide (s.min_confidence ≤ confidenceOf p s false)) := by
    apply List.filter_congr
    intro s _
    exact decide_eq_decide.mpr (confidence_pass_iff p s)
  rw [hfil]

/-- Witness for C3 at a concrete project and catalogue. -/
theorem skip_shortcut_same_names_witness :
    ∀ n, (n ∈ (detect projEmpty [specAlways] true).map (fun r => r.name) ↔
      n ∈ (detect projEmpty [specAlways] false).map (fun r => r.name)) :=
  skip_shortcut_same_names projEmpty [specAlways]

/-- A project whose `package.json` declares the dependency `React`
(upper-case R) and nothing else. -/
def projReact : Project := ⟨some [], [], some ⟨["React"], []⟩, none, none, none, none⟩

/-- C2 (evaluation at the failing input): the framework signal `react`
does NOT match the `package.json` dependency `React` — the pooled
normalisation strips hyphens/underscores but never lower-cases, although
the source's own comment says "Normalise for comparison: lowercase, strip
hyphens/underscores" and the spec promises case-insensitivity.  The same
signal written as `React` does match, and the two names are equal under
the claimed normalisation (lower-case + strip). -/
theorem framework_matching_case_sensitive :
    gather_frameworks projReact ["react"] = 0
    ∧ gather_frameworks projReact ["React"] = 1
    ∧ stripHyphensUnderscores (strLower "React")
        = stripHyphensUnderscores (strLower "react") := by
  refine ⟨?_, ?_, rfl⟩
  · simp only [gather_frameworks]
    norm_num [signalRatio]
    decide
  · simp only [gather_frameworks]
    norm_num [signalRatio]
    decide
